import Mathlib

/-!
Verification of the identifier-classification and corpus-matching engine of the
leaks-data repository (src/app.py, src/bulk_search.py, src/db.py), as a shallow
embedding: Python strings are lists of characters, the generated SQL WHERE
fragments are a small clause datatype mirroring the exact strings the code
emits, and the scanner helpers are pure functions over line lists.
-/

namespace LeaksData

/-- Characters of a Python string, modelled as a list of characters. -/
abbrev Str := List Char

/-- Shorthand turning a Lean string literal into the character-list model. -/
def S (s : String) : Str := s.toList

/-- Whitespace recognised by Python str.strip with no arguments
(the ASCII fragment; non-ASCII whitespace is outside the modelled corpus). -/
def pyIsSpace (c : Char) : Bool :=
  c = ' ' || c = '\t' || c = '\n' || c = '\r' || c = '\x0b' || c = '\x0c'

/-- Python str.strip(): drop leading and trailing whitespace. -/
def pyStrip (s : Str) : Str :=
  ((s.dropWhile pyIsSpace).reverse.dropWhile pyIsSpace).reverse

/-- ASCII lower-casing of one character, as Python str.lower acts on ASCII
(non-ASCII letters are outside the modelled corpus). -/
def pyLowerChar (c : Char) : Char :=
  if 'A' ≤ c && c ≤ 'Z' then Char.ofNat (c.toNat + 32) else c

/-- Python str.lower on the modelled ASCII fragment. -/
def pyLower (s : Str) : Str := s.map pyLowerChar

/-- Does the first list occur at the start of the second? -/
def leadsWith : Str → Str → Bool
  | [], _ => true
  | _ :: _, [] => false
  | p :: ps, c :: cs => p = c && leadsWith ps cs

/-- Does the first list occur at the end of the second? -/
def trailsWith (p s : Str) : Bool := leadsWith p.reverse s.reverse

/-- Does the first list occur contiguously anywhere inside the second? -/
def hasSub (needle : Str) : Str → Bool
  | [] => leadsWith needle []
  | c :: cs => leadsWith needle (c :: cs) || hasSub needle cs

/-- Python s.split(sep, 1) for a one-character separator: the part before the
first occurrence and, when the separator occurs, the remainder after it. -/
def splitOnce (sep : Char) : Str → Str × Option Str
  | [] => ([], none)
  | c :: cs =>
      if c = sep then ([], some cs)
      else
        let r := splitOnce sep cs
        (c :: r.1, r.2)

/-- Python s.rstrip(c) for a one-character argument: drop all trailing
copies of c. -/
def rstripChar (c : Char) (s : Str) : Str :=
  (s.reverse.dropWhile (fun x => x = c)).reverse

/-- Join fields with dots, as the Python expression ".".join(parts). -/
def joinDots : List Str → Str
  | [] => []
  | [p] => p
  | p :: ps => p ++ '.' :: joinDots ps

/-- One to three ASCII digits: the regex fragment matching one octet field. -/
def isOctet13 (s : Str) : Bool :=
  !s.isEmpty && decide (s.length ≤ 3) && s.all Char.isDigit

/-- Test for regex patterns of the form octet(.octet){lo-1,hi-1}: the string
splits on dots into between lo and hi fields, each one to three digits. -/
def dottedDigits (lo hi : Nat) (s : Str) : Bool :=
  let parts := s.splitOn '.'
  decide (lo ≤ parts.length) && decide (parts.length ≤ hi) && parts.all isOctet13

/-- Numeric value of an ASCII digit string. -/
def digitsToNat (s : Str) : Nat :=
  s.foldl (fun n c => n * 10 + (c.toNat - 48)) 0

/-- Octet parsing of the Python ipaddress module: one to three ASCII digits,
no leading zero in a multi-digit field, value at most 255. -/
def parseOctet (s : Str) : Option Nat :=
  if !isOctet13 s then none
  else if decide (1 < s.length) && s.head? = some '0' then none
  else
    let n := digitsToNat s
    if n ≤ 255 then some n else none

/-- Dotted-quad parsing of ipaddress.IPv4Address: exactly four valid octets. -/
def parseIPv4 (s : Str) : Option Nat :=
  match (s.splitOn '.').mapM parseOctet with
  | some [a, b, c, d] => some (((a * 256 + b) * 256 + c) * 256 + d)
  | _ => none

/-- Netmask integer with k leading one bits. -/
def netmaskInt (k : Nat) : Nat := 2 ^ 32 - 2 ^ (32 - k)

/-- Hostmask integer with 32 - k trailing one bits. -/
def hostmaskInt (k : Nat) : Nat := 2 ^ (32 - k) - 1

/-- Mask parsing of ipaddress.IPv4Network: a pure digit string valued at most
32, or a dotted quad read as a netmask (leading ones) or, failing that, as a
hostmask (trailing ones). -/
def parseMask (s : Str) : Option Nat :=
  if !s.isEmpty && s.all Char.isDigit then
    let n := digitsToNat s
    if n ≤ 32 then some n else none
  else
    match parseIPv4 s with
    | none => none
    | some m =>
        match (List.range 33).find? (fun k => m = netmaskInt k) with
        | some k => some k
        | none => (List.range 33).find? (fun k => m = hostmaskInt k)

/-- CIDR parsing of ipaddress.ip_network(value, strict=False), restricted to
IPv4 (IPv6 interpretation is a declared non-goal, spec section 1): the network
and broadcast addresses as 32-bit integers, host bits masked off. -/
def parseNetwork (value : Str) : Option (Nat × Nat) :=
  match value.splitOn '/' with
  | [a] =>
      match parseIPv4 a with
      | some ip => some (ip, ip)
      | none => none
  | [a, m] =>
      match parseIPv4 a, parseMask m with
      | some ip, some k =>
          let block := 2 ^ (32 - k)
          let network := ip - ip % block
          some (network, network + block - 1)
      | _, _ => none
  | _ => none

/-- Normalized record columns referenced by the generated WHERE clauses. -/
inductive Field
  | domain_norm | url_norm | login_norm | email_norm | email_domain_norm
deriving DecidableEq, Repr

/-- One SQL comparison produced by the query builders: an equality clause
of the shape field = ?, a pattern clause field LIKE ? (argument carried
verbatim, wildcards included), or ip_to_int(domain_norm) BETWEEN ? AND ?. -/
inductive Clause
  | fieldEq (f : Field) (v : Str)
  | fieldLike (f : Field) (pat : Str)
  | ipBetween (lo hi : Nat)
deriving DecidableEq, Repr

/-- Shortcut prefix for masks 8, 16, 24: the first n octets joined with dots,
as ".".join(ip.split(".")[:n]). -/
def firstOctets (n : Nat) (ip : Str) : Str :=
  joinDots ((ip.splitOn '.').take n)

/-- Embedding of ip_prefix_clause (src/app.py lines 52-84): IP and CIDR
query forms and the predicate each yields; None when no form matches.
The sequential if statements of the source fall through on an inner regex
failure, which the else-if chain reproduces. -/
def ip_prefix_clause (value0 : Str) : Option Clause :=
  let value := pyLower (pyStrip value0)
  if value.isEmpty then none
  else if trailsWith (S ".*") value && dottedDigits 1 3 value.dropLast.dropLast then
    some (.fieldLike .domain_norm (value.dropLast.dropLast ++ S ".%"))
  else if trailsWith (S ".") value && dottedDigits 1 4 value.dropLast then
    some (.fieldLike .domain_norm (value ++ S "%"))
  else if value.contains '/' then
    let ip := (splitOnce '/' value).1
    let mask := ((splitOnce '/' value).2).getD []
    if dottedDigits 4 4 ip && mask = S "32" then some (.fieldEq .domain_norm ip)
    else if dottedDigits 4 4 ip && mask = S "8" then
      some (.fieldLike .domain_norm (firstOctets 1 ip ++ S ".%"))
    else if dottedDigits 4 4 ip && mask = S "16" then
      some (.fieldLike .domain_norm (firstOctets 2 ip ++ S ".%"))
    else if dottedDigits 4 4 ip && mask = S "24" then
      some (.fieldLike .domain_norm (firstOctets 3 ip ++ S ".%"))
    else
      match parseNetwork value with
      | some (lo, hi) => some (.ipBetween lo hi)
      | none => none
  else if dottedDigits 4 4 value then some (.fieldEq .domain_norm value)
  else none

/-- Embedding of tld_clause (src/app.py lines 87-95): a leading dot followed
by 2 to 63 characters drawn from lower-case letters, digits and hyphen yields
a suffix LIKE pattern; anything else yields None. -/
def tld_clause (value0 : Str) : Option Clause :=
  let value := pyLower (pyStrip value0)
  if value.isEmpty || !leadsWith (S ".") value then none
  else if value.length < 2 then none
  else if decide (2 ≤ (value.drop 1).length) && decide ((value.drop 1).length ≤ 63)
      && (value.drop 1).all (fun c =>
        ('a' ≤ c && c ≤ 'z') || ('0' ≤ c && c ≤ '9') || c = '-') then
    some (.fieldLike .domain_norm ('%' :: value))
  else none

/-- Embedding of normalize_email_domain (src/app.py lines 24-28). -/
def normalize_email_domain (value0 : Str) : Str :=
  let v := pyStrip value0
  pyLower (if leadsWith (S "@") v then v.drop 1 else v)

/-- Scheme characters accepted by urllib.parse after the leading letter. -/
def schemeChar (c : Char) : Bool :=
  c.isAlphanum || c = '+' || c = '-' || c = '.'

/-- Index of the first occurrence of a character, if any. -/
def idxOf (c : Char) : Str → Option Nat
  | [] => none
  | x :: xs => if x = c then some 0 else (idxOf c xs).map (· + 1)

/-- Input cleanup of urlsplit (Python 3.10+): strip leading and trailing C0
controls and spaces, then remove every tab, carriage return and newline. -/
def urlCleanup (url : Str) : Str :=
  let stripped := ((url.dropWhile (fun c => c.toNat ≤ 32)).reverse.dropWhile
      (fun c => c.toNat ≤ 32)).reverse
  stripped.filter (fun c => !(c = '\t' || c = '\r' || c = '\n'))

/-- Scheme removal of urlsplit: when a colon at a positive position is
preceded by an ASCII letter and scheme characters only, keep the remainder
after the colon. -/
def dropScheme (url : Str) : Str :=
  match idxOf ':' url with
  | none => url
  | some i =>
      if decide (0 < i) && (url.take 1).all Char.isAlpha
          && ((url.take i).drop 1).all schemeChar then
        url.drop (i + 1)
      else url

/-- Network-location extraction of urlsplit: when the remainder after the
scheme starts with two slashes, the text up to the next slash, question mark
or hash sign; empty otherwise. -/
def netlocOf (rest : Str) : Str :=
  if leadsWith (S "//") rest then
    (rest.drop 2).takeWhile (fun c => !(c = '/' || c = '?' || c = '#'))
  else []

/-- Text after the last occurrence of a character, the whole string when the
character does not occur, as rpartition picks the host info from a netloc. -/
def afterLast (c : Char) (s : Str) : Str :=
  (s.reverse.takeWhile (fun x => x ≠ c)).reverse

/-- Hostname of urlparse(candidate) with the try/except and or-empty wrapping
of the source (src/app.py lines 34-38): lower-cased host, or empty when no
host was parsed or parsing raised. Bracketed (IPv6) authorities are outside
the modelled scope (spec section 1 declares IPv6 a non-goal) and yield the
empty result here. -/
def pyHostname (candidate : Str) : Str :=
  let netloc := netlocOf (dropScheme (urlCleanup candidate))
  if netloc.contains '[' || netloc.contains ']' then []
  else pyLower ((afterLast '@' netloc).takeWhile (fun c => c ≠ ':'))

/-- Disjunction of clauses as produced by url_filters: the SQL text joins the
clauses with OR inside one parenthesised group. -/
inductive BasePred
  | single (c : Clause)
  | orC (cs : List Clause)
deriving DecidableEq, Repr

/-- Full WHERE expressions produced by build_query: the constant 1=0 matching
nothing, a base predicate, or the all-mode disjunction of a base predicate
with equalities on login_norm, email_norm and email_domain_norm. -/
inductive Pred
  | noneMatch
  | base (b : BasePred)
  | allOr (b : BasePred) (value edv : Str)
deriving DecidableEq, Repr

/-- Embedding of url_filters (src/app.py lines 31-49): host equality when a
host was parsed, exact normalized equality, and a prefix LIKE clause when the
value contains :// or a slash. -/
def url_filters (value0 : Str) : BasePred :=
  let value := pyLower (pyStrip value0)
  let candidate := if hasSub (S "://") value then value else S "http://" ++ value
  let host := pyHostname candidate
  BasePred.orC
    ((if !host.isEmpty then [Clause.fieldEq .domain_norm (pyLower host)] else []) ++
     [Clause.fieldEq .url_norm value] ++
     (if hasSub (S "://") value || value.contains '/' then
        [Clause.fieldLike .url_norm (rstripChar '/' value ++ S "%")]
      else []))

/-- Classification result of detect_mode. -/
inductive Mode
  | ip | tld | email_domain | email | url | login
deriving DecidableEq, Repr

/-- Embedding of detect_mode (src/app.py lines 98-114): None on a query that
strips to empty, otherwise the first matching test in source order. -/
def detect_mode (value0 : Str) : Option Mode :=
  let value := pyStrip value0
  if value.isEmpty then none
  else if (ip_prefix_clause value).isSome then some .ip
  else if (tld_clause value).isSome then some .tld
  else if leadsWith (S "@") value then some .email_domain
  else if value.contains '@' then some .email
  else if hasSub (S "://") value || value.contains '/' then some .url
  else if value.contains '.' then some .url
  else some .login

/-- Embedding of build_query (src/app.py lines 117-179). Parameters mirror
the query parameters of the /api/search route; mode is compared against the
literal string all, and Python truthiness of a string is emptiness. The
source's fall-through after a failed inner clause lookup lands on the final
login equality, reproduced in the none branches. -/
def build_query (url email login email_domain q mode : Str) : Pred :=
  if mode = S "all" then
    if q.isEmpty then .noneMatch
    else
      let value := pyLower (pyStrip q)
      let email_domain_value := normalize_email_domain q
      let urlBase :=
        match ip_prefix_clause q with
        | some c => BasePred.single c
        | none =>
            match tld_clause q with
            | some c => BasePred.single c
            | none => url_filters q
      .allOr urlBase value email_domain_value
  else if !url.isEmpty then
    match ip_prefix_clause url with
    | some c => .base (.single c)
    | none =>
        match tld_clause url with
        | some c => .base (.single c)
        | none => .base (url_filters url)
  else if !email.isEmpty then
    .base (.single (.fieldEq .email_norm (pyLower (pyStrip email))))
  else if !login.isEmpty then
    .base (.single (.fieldEq .login_norm (pyLower (pyStrip login))))
  else if !email_domain.isEmpty then
    .base (.single (.fieldEq .email_domain_norm (normalize_email_domain email_domain)))
  else if !q.isEmpty then
    match detect_mode q with
    | some .ip =>
        match ip_prefix_clause q with
        | some c => .base (.single c)
        | none => .base (.single (.fieldEq .login_norm (pyLower (pyStrip q))))
    | some .tld =>
        match tld_clause q with
        | some c => .base (.single c)
        | none => .base (.single (.fieldEq .login_norm (pyLower (pyStrip q))))
    | some .url => .base (url_filters q)
    | some .email => .base (.single (.fieldEq .email_norm (pyLower (pyStrip q))))
    | some .email_domain =>
        .base (.single (.fieldEq .email_domain_norm (normalize_email_domain q)))
    | some .login => .base (.single (.fieldEq .login_norm (pyLower (pyStrip q))))
    | none => .base (.single (.fieldEq .login_norm (pyLower (pyStrip q))))
  else .noneMatch

/-- SQL LIKE matching as PostgreSQL evaluates the generated patterns: percent
matches any character sequence, underscore any one character, backslash
escapes the following pattern character; a pattern ending in a bare backslash
is an error in PostgreSQL and is modelled as matching nothing. -/
def likeMatch : Str → Str → Bool
  | [], s => s.isEmpty
  | '%' :: p, s => s.tails.any (fun t => likeMatch p t)
  | '\\' :: c :: p, s =>
      match s with
      | [] => false
      | c2 :: s2 => c = c2 && likeMatch p s2
  | ['\\'], _ => false
  | '_' :: p, s =>
      match s with
      | [] => false
      | _ :: s2 => likeMatch p s2
  | c :: p, s =>
      match s with
      | [] => false
      | c2 :: s2 => c = c2 && likeMatch p s2

/-- Normalized columns of one stored record (the records table, src/db.py). -/
structure Record where
  domain_norm : Str
  url_norm : Str
  login_norm : Str
  email_norm : Str
  email_domain_norm : Str
deriving DecidableEq, Repr

/-- Column lookup on a record. -/
def Record.field (r : Record) : Field → Str
  | .domain_norm => r.domain_norm
  | .url_norm => r.url_norm
  | .login_norm => r.login_norm
  | .email_norm => r.email_norm
  | .email_domain_norm => r.email_domain_norm

/-- Modelled ip_to_int SQL function (src/db.py, init_db): defined exactly on
strings matching the dotted-quad regex, each field shifted into place with no
octet range check; NULL (none) otherwise. -/
def ip_to_int (value : Str) : Option Nat :=
  if dottedDigits 4 4 value then
    match value.splitOn '.' with
    | [a, b, c, d] =>
        some (digitsToNat a * 2 ^ 24 + digitsToNat b * 2 ^ 16 +
          digitsToNat c * 2 ^ 8 + digitsToNat d)
    | _ => none
  else none

/-- Truth value of one clause against a record; a NULL ip_to_int makes the
BETWEEN comparison unknown, hence not a match. -/
def Clause.eval (r : Record) : Clause → Bool
  | .fieldEq f v => decide (r.field f = v)
  | .fieldLike f pat => likeMatch pat (r.field f)
  | .ipBetween lo hi =>
      match ip_to_int r.domain_norm with
      | some n => decide (lo ≤ n) && decide (n ≤ hi)
      | none => false

/-- Truth value of a clause disjunction against a record. -/
def BasePred.eval (r : Record) : BasePred → Bool
  | .single c => c.eval r
  | .orC cs => cs.any (Clause.eval r)

/-- Truth value of a full WHERE expression against a record. -/
def Pred.eval (r : Record) : Pred → Bool
  | .noneMatch => false
  | .base b => b.eval r
  | .allOr b v edv =>
      b.eval r || decide (r.login_norm = v) || decide (r.email_norm = v) ||
        decide (r.email_domain_norm = edv)

/-- Remainder after the first occurrence of a substring, the whole string when
the needle is absent, as s.split(sub, 1) keeps the part after the first hit. -/
def afterSub (needle : Str) : Str → Str
  | [] => []
  | c :: cs =>
      if leadsWith needle (c :: cs) then (c :: cs).drop needle.length
      else afterSub needle cs

/-- Python s.strip(".") for the dot argument: drop leading and trailing dots. -/
def stripDots (s : Str) : Str :=
  ((s.dropWhile (fun c => c = '.')).reverse.dropWhile (fun c => c = '.')).reverse

/-- Embedding of extract_host (src/bulk_search.py lines 65-74). -/
def extract_host (token0 : Str) : Str :=
  if token0.isEmpty then []
  else
    let t1 := if hasSub (S "://") token0 then afterSub (S "://") token0 else token0
    let t2 := if leadsWith (S "//") t1 then t1.drop 2 else t1
    let t3 := (splitOnce '/' t2).1
    let t4 := (splitOnce ':' t3).1
    stripDots (pyStrip t4)

/-- Successive dot-joined suffixes obtained by stripping the leftmost label:
parts dropped from index i joined with dots, for i from 1 to the label count
minus one, in that order. -/
def suffixCandidates : List Str → List Str
  | [] => []
  | _ :: rest => if rest.isEmpty then [] else joinDots rest :: suffixCandidates rest

/-- Embedding of match_domain (src/bulk_search.py lines 77-88); the Python set
of watchlist domains is modelled as a list tested by membership. -/
def match_domain (candidate0 : Str) (domain_set : List Str) : Option Str :=
  if candidate0.isEmpty then none
  else
    let candidate := stripDots (pyLower candidate0)
    if candidate ∈ domain_set then some candidate
    else (suffixCandidates (candidate.splitOn '.')).find?
      (fun s => decide (s ∈ domain_set))

/-- Recursion for line.find(c, start) over the dropped suffix, carrying the
absolute index. -/
def findFromAux (c : Char) : Str → Nat → Option Nat
  | [], _ => none
  | x :: xs, i => if x = c then some i else findFromAux c xs (i + 1)

/-- Python line.find(c, start): the first position at or after start holding
the character c, if any. -/
def findFrom (c : Char) (line : Str) (start : Nat) : Option Nat :=
  findFromAux c (line.drop start) start

/-- Characters the scanner accepts inside an email-domain candidate: ASCII
isalnum, dot and hyphen. -/
def emailChar (c : Char) : Bool := c.isAlphanum || c = '.' || c = '-'

/-- End of the candidate run starting at position p: advance while within the
line and on an email character, as the inner while loop does. -/
def scanEnd (line : Str) (p : Nat) : Nat :=
  p + ((line.drop p).takeWhile emailChar).length

/-- Fuel-indexed embedding of the unbounded while loop of find_email_domain
(src/bulk_search.py lines 91-105): none when the fuel runs out before the
loop returns, some r when the loop returns r. -/
def fedLoop (domain_set : List Str) (line : Str) :
    Nat → Nat → Option (Option Str)
  | 0, _ => none
  | fuel + 1, idx =>
      match findFrom '@' line idx with
      | none => some none
      | some atPos =>
          let e := scanEnd line (atPos + 1)
          let candidate := (line.take e).drop (atPos + 1)
          match match_domain candidate domain_set with
          | some m => some (some m)
          | none => fedLoop domain_set line fuel e

/-- Embedding of find_email_domain: the loop given one fuel unit per character
of the line plus one, which the termination theorem shows is enough. -/
def find_email_domain (line : Str) (domain_set : List Str) : Option Str :=
  (fedLoop domain_set line (line.length + 1) 0).join

/-- Byte deltas posted to the shared progress state by one process_file call
(src/bulk_search.py lines 108-176): a local counter accumulates line lengths
and is flushed into the shared total whenever it reaches the step_local
threshold, with a final flush of any nonzero remainder. -/
def progressDeltas (step_local : Nat) : List Str → Nat → List Nat
  | [], local_done => if local_done ≠ 0 then [local_done] else []
  | line :: rest, local_done =>
      let ld := local_done + line.length
      if step_local ≤ ld then ld :: progressDeltas step_local rest 0
      else progressDeltas step_local rest ld

/-- Python line.split(sep, 2) for a one-character separator: at most three
fields. -/
def split2 (sep : Char) (s : Str) : List Str :=
  let r1 := splitOnce sep s
  match r1.2 with
  | none => [r1.1]
  | some rest1 =>
      let r2 := splitOnce sep rest1
      match r2.2 with
      | none => [r1.1, r2.1]
      | some rest2 => [r1.1, r2.1, rest2]

/-- Deduplication key of one raw match line (src/bulk_search.py lines
185-190): matched pattern and raw line joined with a tab when the newline-
stripped line splits into the three tab-separated fields, the whole line
otherwise. -/
def dedupKey (line : Str) : Str :=
  match split2 '\t' (rstripChar '\n' line) with
  | [p0, _, p2] => p0 ++ '\t' :: p2
  | _ => line

/-- First-occurrence filter of dedup_output, carrying the set of keys already
seen (modelled as a list). -/
def dedupFrom (seen : List Str) : List Str → List Str
  | [] => []
  | l :: ls =>
      let k := dedupKey l
      if k ∈ seen then dedupFrom seen ls
      else l :: dedupFrom (k :: seen) ls

/-- Embedding of dedup_output (src/bulk_search.py lines 179-195) on the list
of lines of the raw match file. -/
def dedup_output (lines : List Str) : List Str := dedupFrom [] lines

/-- Ordered classification tests as the spec words them (section 4.2): the
first matching mode among IP/CIDR, TLD, email-domain, email and URL, with
login as the default, over the stripped query. Spec-side counterpart used to
state refinement of detect_mode. -/
def detectModeSpec (v : Str) : Mode :=
  if (ip_prefix_clause v).isSome then .ip
  else if (tld_clause v).isSome then .tld
  else if leadsWith (S "@") v then .email_domain
  else if v.contains '@' then .email
  else if hasSub (S "://") v || v.contains '/' || v.contains '.' then .url
  else .login

/-- Total decoded character count of a scanned file: the sum of its decoded
line lengths, which is the quantity the workers accumulate through len(line).
This is distinct from the on-disk byte count st_size that the source uses as
the file's size. -/
def decodedSize (lines : List Str) : Nat := (lines.map List.length).sum

/-- Size of a file as path.stat().st_size reports it: the number of bytes on
disk, with a file modelled as its list of byte values. -/
def st_size (bytes : List Nat) : Nat := bytes.length

/-- Continuation byte of a multi-byte UTF-8 sequence. -/
def utf8Cont (b : Nat) : Bool := 128 ≤ b && b ≤ 191

/-- Strict UTF-8 decoding on the fragment the C3 analysis needs: ASCII bytes
decode to themselves and a C2-DF lead byte plus one continuation byte decode
to one code point; three- and four-byte sequences and invalid bytes are
outside the modelled fragment and yield none, so the errors=ignore recovery
of the source never has to run on the inputs considered here. -/
def utf8Decode : List Nat → Option (List Char)
  | [] => some []
  | b :: bs =>
      if b ≤ 127 then (utf8Decode bs).map (fun t => Char.ofNat b :: t)
      else if 194 ≤ b ∧ b ≤ 223 then
        match bs with
        | b2 :: bs2 =>
            if utf8Cont b2 then
              (utf8Decode bs2).map
                (fun t => Char.ofNat ((b - 192) * 64 + (b2 - 128)) :: t)
            else none
        | [] => none
      else none

/-- Pass of newlineTranslate carrying whether a carriage return is pending:
a pending one plus a line feed collapse to one line feed, a pending one
before anything else becomes its own line feed. -/
def newlineTranslateAux : Bool → Str → Str
  | pending, [] => if pending then ['\n'] else []
  | pending, c :: rest =>
      if c = '\r' then
        (if pending then ['\n'] else []) ++ newlineTranslateAux true rest
      else if c = '\n' then
        '\n' :: newlineTranslateAux false rest
      else
        (if pending then ['\n'] else []) ++ c :: newlineTranslateAux false rest

/-- Universal newline translation performed by text mode (newline=None): a
carriage return, alone or followed by a line feed, becomes one line feed. -/
def newlineTranslate (s : Str) : Str := newlineTranslateAux false s

/-- Accumulating pass of splitLines, building the current line reversed. -/
def splitLinesAux (acc : Str) : Str → List Str
  | [] => if acc.isEmpty then [] else [acc.reverse]
  | c :: rest =>
      if c = '\n' then (c :: acc).reverse :: splitLinesAux [] rest
      else splitLinesAux (c :: acc) rest

/-- Splitting decoded text into the lines file iteration yields: each line
keeps its trailing line feed, a final segment without one is a line of its
own, and empty text yields no lines. -/
def splitLines (s : Str) : List Str := splitLinesAux [] s

/-- Lines produced by opening a file with the given bytes in text mode with
encoding utf-8 (on the modelled decode fragment): decode, translate
newlines, split into lines. -/
def fileLines (bytes : List Nat) : Option (List Str) :=
  (utf8Decode bytes).map (fun t => splitLines (newlineTranslate t))

/-- Pattern characters with no special LIKE meaning. -/
def plainChar (c : Char) : Bool := !(c = '%' || c = '_' || c = '\\')

theorem tails_any_isEmpty (s : Str) : s.tails.any (fun t => t.isEmpty) = true := by
  induction s with
  | nil => rfl
  | cons c cs ih => simp [List.tails_cons, ih]

theorem likeMatch_leadsWith (p : Str) (hp : p.all plainChar = true) (s : Str) :
    likeMatch (p ++ [Char.ofNat 37]) s = leadsWith p s := by
  induction p generalizing s with
  | nil =>
      have h : likeMatch [Char.ofNat 37] s = s.tails.any (fun t => t.isEmpty) := by
        show likeMatch ['%'] s = _
        simp [likeMatch]
      simp [leadsWith, h, tails_any_isEmpty]
  | cons c p ih =>
      rw [List.all_cons, Bool.and_eq_true] at hp
      have hc : ((c = '%') = False) ∧ ((c = '_') = False) ∧ ((c = '\\') = False) := by
        have h1 := hp.1
        simp only [plainChar, Bool.not_eq_true', Bool.or_eq_false_iff,
          decide_eq_false_iff_not] at h1
        exact ⟨eq_false h1.1.1, eq_false h1.1.2, eq_false h1.2⟩
      have hrest : p.all plainChar = true := hp.2
      cases s with
      | nil => simp [likeMatch, leadsWith, hc.1, hc.2.1, hc.2.2]
      | cons d s2 =>
          simp [likeMatch, leadsWith, hc.1, hc.2.1, hc.2.2, ih hrest s2]

/-- Claim C1, counterexample: for the query 10.0.0.0/18 the code computes
broadcast 167788543 (10.0.63.255), not 167838207 as the claim states. -/
theorem c1_broadcast_counterexample :
    ¬ ip_prefix_clause (S "10.0.0.0/18") =
      some (Clause.ipBetween 167772160 167838207) := by decide

/-- Claim C1 (amended): the query 1.2.* yields a LIKE predicate on
domain_norm whose pattern matches exactly the strings with prefix 1.2., the
query 1.2.3.0/24 yields one matching exactly the prefix 1.2.3., and the query
10.0.0.0/18 yields the numeric range predicate over ip_to_int(domain_norm)
with network 167772160 and broadcast 167788543. -/
theorem c1_ip_predicates :
    ip_prefix_clause (S "1.2.*") = some (.fieldLike .domain_norm (S "1.2.%")) ∧
    (∀ s, likeMatch (S "1.2.%") s = leadsWith (S "1.2.") s) ∧
    ip_prefix_clause (S "1.2.3.0/24") =
      some (.fieldLike .domain_norm (S "1.2.3.%")) ∧
    (∀ s, likeMatch (S "1.2.3.%") s = leadsWith (S "1.2.3.") s) ∧
    ip_prefix_clause (S "10.0.0.0/18") = some (.ipBetween 167772160 167788543) := by
  refine ⟨by decide, fun s => ?_, by decide, fun s => ?_, by decide⟩
  · have h := likeMatch_leadsWith (S "1.2.") (by decide) s
    rwa [show S "1.2." ++ [Char.ofNat 37] = S "1.2.%" from by decide] at h
  · have h := likeMatch_leadsWith (S "1.2.3.") (by decide) s
    rwa [show S "1.2.3." ++ [Char.ofNat 37] = S "1.2.3.%" from by decide] at h

/-- Claim C4, counterexample: queries whose octets exceed 255 still yield
predicates through the regex-based branches, contrary to the claim that they
yield none: 999.1.2.3 yields an equality predicate and 300.0.0.1/24 a prefix
predicate. -/
theorem c4_invalid_octet_counterexample :
    ip_prefix_clause (S "999.1.2.3") =
      some (.fieldEq .domain_norm (S "999.1.2.3")) ∧
    ip_prefix_clause (S "300.0.0.1/24") =
      some (.fieldLike .domain_norm (S "300.0.0.%")) := by decide

/-- Claim C4 (amended): the regex-based branches (bare dotted quad and the
shortcut masks 8, 16, 24, 32) only check that each octet is one to three
digits, so 999.1.2.3 and 300.0.0.1/24 do yield predicates; only the general
CIDR branch fully parses the address, where an invalid octet (300.0.0.1/20)
or a malformed mask (1.2.3.4/xy) yields no predicate and classification
falls through to the later rules, here the URL rule. -/
theorem c4_fallthrough :
    ip_prefix_clause (S "999.1.2.3") =
      some (.fieldEq .domain_norm (S "999.1.2.3")) ∧
    ip_prefix_clause (S "300.0.0.1/24") =
      some (.fieldLike .domain_norm (S "300.0.0.%")) ∧
    ip_prefix_clause (S "300.0.0.1/20") = none ∧
    detect_mode (S "300.0.0.1/20") = some .url ∧
    ip_prefix_clause (S "1.2.3.4/xy") = none ∧
    detect_mode (S "1.2.3.4/xy") = some .url := by decide

/-- Claim C8: with the free-form query and every explicit field parameter
empty, build_query returns the predicate 1=0, which matches no record, in
every mode including all. -/
theorem c8_empty_fail_closed :
    ∀ (mode : Str) (r : Record),
      (build_query [] [] [] [] [] mode).eval r = false := by
  intro mode r
  by_cases h : mode = S "all" <;> simp [build_query, h, Pred.eval]

/-- Claim C5: match_domain tries the full normalized host and then each
suffix obtained by progressively stripping the leftmost label, returning the
first suffix present in the set; with watchlist example.com, host
a.b.example.com matches and host example.com.evil.com does not. -/
theorem c5_match_domain :
    (∀ (cand : Str) (domain_set : List Str), cand ≠ [] →
      match_domain cand domain_set =
        (stripDots (pyLower cand) ::
          suffixCandidates ((stripDots (pyLower cand)).splitOn '.')).find?
          (fun s => decide (s ∈ domain_set))) ∧
    match_domain (S "a.b.example.com") [S "example.com"] =
      some (S "example.com") ∧
    match_domain (S "example.com.evil.com") [S "example.com"] = none := by
  refine ⟨fun cand ds h => ?_, by decide, by decide⟩
  have hne : cand.isEmpty = false := by
    cases cand
    · exact absurd rfl h
    · rfl
  rw [match_domain]
  simp only [hne, Bool.false_eq_true, if_false]
  by_cases hm : stripDots (pyLower cand) ∈ ds <;> simp [List.find?_cons, hm]

/-- Witness for C5's general suffix characterization at a concrete host. -/
theorem c5_match_domain_witness :
    match_domain (S "x.example.com") [S "example.com"] =
      (stripDots (pyLower (S "x.example.com")) ::
        suffixCandidates
          ((stripDots (pyLower (S "x.example.com"))).splitOn '.')).find?
        (fun s => decide (s ∈ [S "example.com"])) :=
  c5_match_domain.1 (S "x.example.com") [S "example.com"] (by decide)

/-- Claim C2, counterexample: with mode all and an explicit url parameter
given, build_query builds the all-mode predicate from the free-form query q
and ignores the url parameter, so the explicit field does not take precedence
and all mode is not restricted to calls without explicit fields. -/
theorem c2_all_mode_counterexample :
    build_query (S "example.com") [] [] [] (S "1.2.3.4") (S "all") =
      Pred.allOr (.single (.fieldEq .domain_norm (S "1.2.3.4")))
        (S "1.2.3.4") (S "1.2.3.4") ∧
    build_query (S "example.com") [] [] [] (S "1.2.3.4") (S "all") ≠
      build_query (S "example.com") [] [] [] [] [] := by decide

/-- Claim C2 (amended): when mode is not all, the explicit field parameters
take precedence over the free-form query and over each other in the fixed
order url, email, login, email_domain (the result depends only on the first
nonempty one); when mode is all, only the free-form query is used and every
explicit field parameter is ignored. -/
theorem c2_precedence :
    (∀ (url email login email_domain q mode : Str),
      mode ≠ S "all" → url ≠ [] →
      build_query url email login email_domain q mode =
        build_query url [] [] [] [] []) ∧
    (∀ (email login email_domain q mode : Str),
      mode ≠ S "all" → email ≠ [] →
      build_query [] email login email_domain q mode =
        build_query [] email [] [] [] []) ∧
    (∀ (login email_domain q mode : Str),
      mode ≠ S "all" → login ≠ [] →
      build_query [] [] login email_domain q mode =
        build_query [] [] login [] [] []) ∧
    (∀ (email_domain q mode : Str),
      mode ≠ S "all" → email_domain ≠ [] →
      build_query [] [] [] email_domain q mode =
        build_query [] [] [] email_domain [] []) ∧
    (∀ (url email login email_domain q : Str),
      build_query url email login email_domain q (S "all") =
        build_query [] [] [] [] q (S "all")) := by
  have hnil : (([] : Str) = S "all") = False := by decide
  refine ⟨?_, ?_, ?_, ?_, ?_⟩
  · intro url email login email_domain q mode hm hu
    cases url with
    | nil => exact absurd rfl hu
    | cons a as => simp [build_query, eq_false hm, hnil]
  · intro email login email_domain q mode hm he
    cases email with
    | nil => exact absurd rfl he
    | cons a as => simp [build_query, eq_false hm, hnil]
  · intro login email_domain q mode hm hl
    cases login with
    | nil => exact absurd rfl hl
    | cons a as => simp [build_query, eq_false hm, hnil]
  · intro email_domain q mode hm hd
    cases email_domain with
    | nil => exact absurd rfl hd
    | cons a as => simp [build_query, eq_false hm, hnil]
  · intro url email login email_domain q
    simp [build_query]

/-- Witness for C2's amended precedence at concrete inputs. -/
theorem c2_precedence_witness :
    build_query (S "a.com") (S "e@x.y") (S "l") (S "d.org") (S "q") [] =
      build_query (S "a.com") [] [] [] [] [] :=
  c2_precedence.1 (S "a.com") (S "e@x.y") (S "l") (S "d.org") (S "q") []
    (by decide) (by decide)

theorem progressDeltas_sum (step : Nat) :
    ∀ (lines : List Str) (local_done : Nat),
      (progressDeltas step lines local_done).sum =
        local_done + decodedSize lines := by
  intro lines
  induction lines with
  | nil =>
      intro ld
      by_cases h : ld = 0 <;> simp [progressDeltas, decodedSize, h]
  | cons line rest ih =>
      intro ld
      by_cases h : step ≤ ld + line.length <;>
        simp [progressDeltas, decodedSize, h, ih] <;> omega

theorem ofNat_ne_cr : ∀ b < 128, ¬ b = 13 → Char.ofNat b ≠ '\r' := by decide

theorem utf8Decode_ascii : ∀ bytes : List Nat,
    bytes.all (fun b => decide (b ≤ 127)) = true →
    utf8Decode bytes = some (bytes.map Char.ofNat) := by
  intro bytes
  induction bytes with
  | nil => intro _; rfl
  | cons b bs ih =>
      intro h
      rw [List.all_cons, Bool.and_eq_true] at h
      have hb : b ≤ 127 := by simpa using h.1
      have hstep : utf8Decode (b :: bs) =
          (utf8Decode bs).map (fun t => Char.ofNat b :: t) := by
        rw [utf8Decode.eq_def]
        simp [hb]
      rw [hstep, ih h.2, Option.map_some', List.map_cons]

theorem newlineTranslate_no_cr : ∀ s : Str, '\r' ∉ s → newlineTranslate s = s := by
  have aux : ∀ s : Str, '\r' ∉ s → newlineTranslateAux false s = s := by
    intro s
    induction s with
    | nil => intro _; rfl
    | cons c rest ih =>
        intro h
        have hc : ¬ c = '\r' := fun he => h (by simp [he])
        have hr : '\r' ∉ rest := fun hm => h (List.mem_cons_of_mem c hm)
        by_cases hn : c = '\n'
        · simp [newlineTranslateAux, hc, hn, ih hr]
        · simp [newlineTranslateAux, hc, hn, ih hr]
  intro s h
  exact aux s h

theorem splitLinesAux_length_sum : ∀ (s acc : Str),
    ((splitLinesAux acc s).map List.length).sum = acc.length + s.length := by
  intro s
  induction s with
  | nil =>
      intro acc
      cases acc <;> simp [splitLinesAux]
  | cons c rest ih =>
      intro acc
      by_cases hc : c = '\n' <;> simp [splitLinesAux, hc, ih] <;> omega

/-- Claim C3, counterexample: a file of three bytes 97, 13, 10 (the text a
followed by a CRLF) has st_size 3, but text mode translates the CRLF, the
single line decodes to two characters, and a full scan of that one file
posts a total of 2 at the source's step_local of 4 MiB; a two-byte UTF-8
character (bytes 208, 150, then a line feed) likewise has st_size 3 and
posts 2. The shared total therefore differs from the sum of the file sizes
scanned. -/
theorem c3_total_counterexample :
    st_size [97, 13, 10] = 3 ∧
    fileLines [97, 13, 10] = some [[Char.ofNat 97, Char.ofNat 10]] ∧
    (progressDeltas (4 * 1024 * 1024) [[Char.ofNat 97, Char.ofNat 10]] 0).sum = 2 ∧
    (progressDeltas (4 * 1024 * 1024) [[Char.ofNat 97, Char.ofNat 10]] 0).sum ≠
      st_size [97, 13, 10] ∧
    fileLines [208, 150, 10] = some [[Char.ofNat 1046, Char.ofNat 10]] ∧
    (progressDeltas (4 * 1024 * 1024) [[Char.ofNat 1046, Char.ofNat 10]] 0).sum ≠
      st_size [208, 150, 10] := by decide

/-- Claim C3 (amended): after a full scan the shared total equals, for every
worker count, the sum over files of their decoded character counts — the
quantity the workers accumulate through len(line): any interleaving of the
per-file deltas posted under the progress lock (a permutation of their
concatenation) sums to that total. It equals the sum of the on-disk st_size
values exactly when decoding is length-preserving, as it is for ASCII files
free of carriage returns; on CRLF or multi-byte UTF-8 input the two differ. -/
theorem c3_progress_decoded_total :
    (∀ (step : Nat) (files : List (List Str)) (order : List Nat),
      order.Perm ((files.map (fun f => progressDeltas step f 0)).flatten) →
      order.sum = (files.map decodedSize).sum) ∧
    (∀ (bytes : List Nat) (lines : List Str),
      fileLines bytes = some lines →
      bytes.all (fun b => decide (b ≤ 127) && !(decide (b = 13))) = true →
      decodedSize lines = st_size bytes) := by
  constructor
  · intro step files order h
    rw [h.sum_eq]
    clear h
    induction files with
    | nil => rfl
    | cons f fs ih =>
        simp only [List.map_cons, List.flatten_cons, List.sum_append,
          List.sum_cons, ih, progressDeltas_sum, Nat.zero_add]
  · intro bytes lines hf hb
    have hascii : bytes.all (fun b => decide (b ≤ 127)) = true := by
      rw [List.all_eq_true] at hb ⊢
      intro b hbm
      have h1 := hb b hbm
      rw [Bool.and_eq_true] at h1
      exact h1.1
    rw [fileLines, utf8Decode_ascii bytes hascii] at hf
    have hnocr : '\r' ∉ bytes.map Char.ofNat := by
      intro hm
      rcases List.mem_map.mp hm with ⟨b, hbm, hbeq⟩
      have h1 := List.all_eq_true.mp hb b hbm
      rw [Bool.and_eq_true] at h1
      have h127 : b ≤ 127 := by simpa using h1.1
      have h13 : ¬ b = 13 := by simpa using h1.2
      exact ofNat_ne_cr b (by omega) h13 hbeq
    rw [Option.map_some', newlineTranslate_no_cr _ hnocr] at hf
    have hl : lines = splitLines (bytes.map Char.ofNat) :=
      (Option.some.inj hf).symm
    rw [hl, decodedSize, splitLines, splitLinesAux_length_sum,
      List.length_map, st_size]
    simp

/-- Witness for C3's amended totals: a two-file scan whose interleaving
reverses the posted deltas, and an ASCII LF-only file where the decoded
count equals st_size. -/
theorem c3_progress_decoded_total_witness :
    ([1, 2] : List Nat).sum = ([[S "ab"], [S "c"]].map decodedSize).sum ∧
    decodedSize [[Char.ofNat 104, Char.ofNat 105, Char.ofNat 10]] =
      st_size [104, 105, 10] :=
  ⟨c3_progress_decoded_total.1 1 [[S "ab"], [S "c"]] [1, 2] (by decide),
   c3_progress_decoded_total.2 [104, 105, 10]
     [[Char.ofNat 104, Char.ofNat 105, Char.ofNat 10]] (by decide) (by decide)⟩

theorem findFromAux_bounds (c : Char) :
    ∀ (l : Str) (i j : Nat), findFromAux c l i = some j →
      i ≤ j ∧ j < i + l.length := by
  intro l
  induction l with
  | nil => intro i j h; simp [findFromAux] at h
  | cons x xs ih =>
      intro i j h
      rw [findFromAux] at h
      split at h
      · injection h with h2
        subst h2
        refine ⟨Nat.le_refl i, ?_⟩
        simp only [List.length_cons]
        omega
      · have h3 := ih (i + 1) j h
        simp only [List.length_cons]
        omega

theorem findFrom_bounds (c : Char) (line : Str) (start a : Nat)
    (h : findFrom c line start = some a) : start ≤ a ∧ a < line.length := by
  have h2 := findFromAux_bounds c (line.drop start) start a h
  have h3 : (line.drop start).length = line.length - start := List.length_drop ..
  omega

theorem takeWhile_length_le (p : Char → Bool) :
    ∀ l : Str, (l.takeWhile p).length ≤ l.length := by
  intro l
  induction l with
  | nil => simp
  | cons x xs ih =>
      by_cases h : p x = true
      · simp only [List.takeWhile_cons, h, if_true, List.length_cons]
        omega
      · simp [List.takeWhile_cons, h]

theorem scanEnd_le (line : Str) (p : Nat) (hp : p ≤ line.length) :
    scanEnd line p ≤ line.length := by
  have h := takeWhile_length_le emailChar (line.drop p)
  have h2 : (line.drop p).length = line.length - p := List.length_drop ..
  rw [scanEnd]
  omega

theorem fedLoop_isSome (domain_set : List Str) (line : Str) :
    ∀ (fuel idx : Nat), idx ≤ line.length → line.length + 1 - idx ≤ fuel →
      (fedLoop domain_set line fuel idx).isSome = true := by
  intro fuel
  induction fuel with
  | zero => intro idx h1 h2; omega
  | succ f ih =>
      intro idx h1 h2
      rw [fedLoop]
      cases hf : findFrom '@' line idx with
      | none => simp
      | some atPos =>
          have hb := findFrom_bounds '@' line idx atPos hf
          have he1 : atPos + 1 ≤ scanEnd line (atPos + 1) := Nat.le_add_right ..
          have he2 : scanEnd line (atPos + 1) ≤ line.length :=
            scanEnd_le line (atPos + 1) (by omega)
          cases hm : match_domain
              ((line.take (scanEnd line (atPos + 1))).drop (atPos + 1))
              domain_set with
          | some m => simp [hm]
          | none =>
              simp only [hm]
              exact ih (scanEnd line (atPos + 1)) he2 (by omega)

/-- Claim C10: the scan loop of find_email_domain terminates with at most one
iteration per character of the line: fuel of one unit per remaining character
plus one always suffices, because every iteration either returns or advances
the index strictly past the current @-delimited candidate. -/
theorem c10_fed_terminates :
    ∀ (line : Str) (domain_set : List Str) (idx : Nat), idx ≤ line.length →
      (fedLoop domain_set line (line.length + 1 - idx) idx).isSome = true :=
  fun line ds idx h =>
    fedLoop_isSome ds line (line.length + 1 - idx) idx h (Nat.le_refl _)

/-- Witness for C10 on a concrete line with two at signs and no match. -/
theorem c10_fed_terminates_witness :
    (fedLoop [] (S "a@b c@d") ((S "a@b c@d").length + 1 - 0) 0).isSome = true :=
  c10_fed_terminates (S "a@b c@d") [] 0 (by decide)

/-- Claim C6: for every query that is nonempty after stripping, detect_mode
returns the first matching mode of the ordered tests IP/CIDR, TLD,
email-domain, email, URL, with login when none of them matches, exactly as
the spec-side detectModeSpec chain states them. -/
theorem c6_detect_first_match :
    ∀ (v : Str), pyStrip v ≠ [] →
      detect_mode v = some (detectModeSpec (pyStrip v)) := by
  intro v h
  have h1 : (pyStrip v).isEmpty = false := by
    cases hs : pyStrip v
    · exact absurd hs h
    · rfl
  rw [detect_mode, detectModeSpec]
  simp only [h1, Bool.false_eq_true, if_false]
  split_ifs <;> simp_all

/-- Witness for C6 at a concrete query that reaches the login default. -/
theorem c6_detect_first_match_witness :
    detect_mode (S "admin") = some (detectModeSpec (pyStrip (S "admin"))) :=
  c6_detect_first_match (S "admin") (by decide)

theorem splitOnce_no_sep_append (c : Char) :
    ∀ (a b : Str), c ∉ a → splitOnce c (a ++ c :: b) = (a, some b) := by
  intro a
  induction a with
  | nil => intro b _; simp [splitOnce]
  | cons x xs ih =>
      intro b h
      have hx : ¬ x = c := fun he => h (by simp [he])
      simp [splitOnce, hx, ih b (fun hm => h (List.mem_cons_of_mem x hm))]

theorem split2_parts (pat src raw : Str) (hp : '\t' ∉ pat) (hs : '\t' ∉ src) :
    split2 '\t' (pat ++ '\t' :: src ++ '\t' :: raw) = [pat, src, raw] := by
  simp [split2, splitOnce_no_sep_append '\t' pat (src ++ '\t' :: raw) hp,
    splitOnce_no_sep_append '\t' src raw hs]

theorem rstripChar_append_last (c : Char) (s : Str) :
    rstripChar c (s ++ [c]) = rstripChar c s := by
  simp [rstripChar, List.reverse_append, List.dropWhile_cons]

theorem rstripChar_eq_self (c : Char) (s : Str) (h : s.getLast? ≠ some c) :
    rstripChar c s = s := by
  rw [rstripChar]
  cases hs : s.reverse with
  | nil =>
      have : s = [] := by simpa using congrArg List.reverse hs
      simp [this]
  | cons x xs =>
      have hlast : s.getLast? = some x := by
        rw [← List.head?_reverse, hs]
        rfl
      have hx : ¬ x = c := by
        intro he
        exact h (by rw [hlast, he])
      simp only [List.dropWhile_cons, decide_eq_true_eq, hx, if_false]
      rw [← hs, List.reverse_reverse]

theorem dedupKey_ignores_source (pat src raw : Str)
    (hp : '\t' ∉ pat) (hs : '\t' ∉ src) (hr : raw.getLast? ≠ some '\n') :
    dedupKey (pat ++ '\t' :: src ++ '\t' :: raw ++ ['\n']) =
      pat ++ '\t' :: raw := by
  have hline : pat ++ '\t' :: src ++ '\t' :: raw ++ ['\n'] =
      (pat ++ '\t' :: src ++ '\t' :: raw) ++ ['\n'] := by simp
  have hlast : (pat ++ '\t' :: src ++ '\t' :: raw).getLast? ≠ some '\n' := by
    cases raw with
    | nil =>
        have : pat ++ '\t' :: src ++ '\t' :: ([] : Str) =
            (pat ++ '\t' :: src) ++ '\t' :: ([] : Str) := by simp
        rw [this, List.getLast?_append_cons]
        decide
    | cons r rs =>
        have : pat ++ '\t' :: src ++ '\t' :: (r :: rs) =
            (pat ++ '\t' :: src ++ ['\t']) ++ r :: rs := by simp
        rw [this, List.getLast?_append_cons]
        exact hr
  rw [dedupKey, hline, rstripChar_append_last, rstripChar_eq_self _ _ hlast,
    split2_parts pat src raw hp hs]

theorem dedupFrom_idem : ∀ (ls seen : List Str),
    dedupFrom seen (dedupFrom seen ls) = dedupFrom seen ls := by
  intro ls
  induction ls with
  | nil => intro seen; rfl
  | cons l ls ih =>
      intro seen
      by_cases hk : dedupKey l ∈ seen
      · simp [dedupFrom, hk, ih]
      · simp [dedupFrom, hk, ih]

/-- Claim C7: the deduplication key of a well-formed match line is the
matched pattern and the raw line joined by a tab, independent of the source
file field, deduplication keeps first occurrences, and applying it twice to
any match file equals applying it once. -/
theorem c7_dedup :
    (∀ (pat src raw : Str), '\t' ∉ pat → '\t' ∉ src →
      raw.getLast? ≠ some '\n' →
      dedupKey (pat ++ '\t' :: src ++ '\t' :: raw ++ ['\n']) =
        pat ++ '\t' :: raw) ∧
    (∀ lines : List Str, dedup_output (dedup_output lines) = dedup_output lines) :=
  ⟨dedupKey_ignores_source, fun lines => dedupFrom_idem lines []⟩

/-- Witness for C7 at one concrete match line and one concrete match file. -/
theorem c7_dedup_witness :
    dedupKey (S "p" ++ '\t' :: S "file" ++ '\t' :: S "raw line" ++ ['\n']) =
      S "p" ++ '\t' :: S "raw line" ∧
    dedup_output (dedup_output [S "a\tf\tx\n", S "a\tg\tx\n"]) =
      dedup_output [S "a\tf\tx\n", S "a\tg\tx\n"] :=
  ⟨c7_dedup.1 (S "p") (S "file") (S "raw line") (by decide) (by decide)
      (by decide),
   c7_dedup.2 [S "a\tf\tx\n", S "a\tg\tx\n"]⟩

/-- Claim C9: against any record the URL predicate evaluates as the three-way
disjunction the spec states: host equality on domain_norm when a host was
parsed, exact equality on url_norm with the normalized value, and, when the
value contains :// or a slash, the prefix pattern on url_norm with the
trailing slashes removed; concretely example.com/path yields both the exact
and the prefix clause, whose pattern matches exactly that prefix. -/
theorem c9_url_three_way :
    (∀ (value : Str) (r : Record),
      (url_filters value).eval r =
        (let v := pyLower (pyStrip value)
         let host := pyHostname (if hasSub (S "://") v then v
           else S "http://" ++ v)
         (!host.isEmpty && decide (r.domain_norm = pyLower host)) ||
           decide (r.url_norm = v) ||
           ((hasSub (S "://") v || v.contains '/') &&
             likeMatch (rstripChar '/' v ++ S "%") r.url_norm))) ∧
    url_filters (S "example.com/path") =
      BasePred.orC [.fieldEq .domain_norm (S "example.com"),
        .fieldEq .url_norm (S "example.com/path"),
        .fieldLike .url_norm (S "example.com/path%")] ∧
    (∀ s, likeMatch (S "example.com/path%") s =
      leadsWith (S "example.com/path") s) := by
  refine ⟨fun value r => ?_, by decide, fun s => ?_⟩
  · simp only [url_filters, BasePred.eval]
    generalize pyHostname (if hasSub (S "://") (pyLower (pyStrip value))
        then pyLower (pyStrip value)
        else S "http://" ++ pyLower (pyStrip value)) = host
    by_cases h1 : host.isEmpty <;>
      by_cases ha : hasSub (S "://") (pyLower (pyStrip value)) = true <;>
      by_cases hb : ('/' ∈ pyLower (pyStrip value)) <;>
      simp [h1, ha, hb, Clause.eval, Record.field, Bool.or_assoc]
  · have h := likeMatch_leadsWith (S "example.com/path") (by decide) s
    rwa [show S "example.com/path" ++ [Char.ofNat 37] = S "example.com/path%"
      from by decide] at h

end LeaksData
